import Mathlib

/-!
Verification of the ST7735 display driver (src/Examples/DrawTest/st7735.c).

The driver talks to the display through three transport primitives:
single-byte command writes (DC line low), single-byte data writes
(DC line high), and DMA block transfers with a repeat count
(`SPI_send_DMA`).  We model the observable protocol as a list of
events, and each drawing primitive as a pure function producing the
byte sequence it writes into the shared scratch buffer together with
the event trace it emits.  Machine integers are modelled as `Nat`
(for `uint16_t`, reduced mod 2^16 where the C converts) and `Int`
(for `int16_t` / `int32_t`, with explicit two's-complement wrapping).
The panel offset constants `ST7735_X_OFFSET` / `ST7735_Y_OFFSET` come
from the header `st7735.h`, which is not part of the sources; they are
passed as explicit parameters `xOff` / `yOff` and all results hold for
every choice of offsets.
-/

namespace ST7735

/-- Reduction of a value to `uint16_t` range, as C does on conversion. -/
def u16 (n : Nat) : Nat := n % 65536

/-- High byte of a 16-bit value (`data >> 8` in `write_data_16`). -/
def byteHi (v : Nat) : Nat := v % 65536 / 256

/-- Low byte of a 16-bit value (truncation to `uint8_t` in `SPI_send`). -/
def byteLo (v : Nat) : Nat := v % 256

/-- Two's-complement wrap of an integer to `int16_t` range. -/
def wrap16 (i : Int) : Int := (i + 32768) % 65536 - 32768

/-- C conversion of a (promoted) integer value to `uint16_t`. -/
def toU16 (i : Int) : Nat := (i % 65536).toNat

/-- Two's-complement wrap of an integer to `int32_t` range. -/
def wrap32 (i : Int) : Int := (i + 2147483648) % 4294967296 - 2147483648

/-- Observable transport events: a command byte, a data byte, and a DMA
block transfer of a byte sequence with a repeat count (`SPI_send_DMA`). -/
inductive Ev where
  | cmd (b : Nat)
  | data (b : Nat)
  | block (bytes : List Nat) (rep : Nat)
  deriving DecidableEq

/-- Recognizer for block-transfer events. -/
def Ev.isBlock : Ev → Bool
  | .block _ _ => true
  | _ => false

/-- Command code `ST7735_CASET` (column address set). -/
def ST7735_CASET : Nat := 0x2A

/-- Command code `ST7735_RASET` (row address set). -/
def ST7735_RASET : Nat := 0x2B

/-- Command code `ST7735_RAMWR` (RAM write). -/
def ST7735_RAMWR : Nat := 0x2C

/-- Embeds `write_command_8`: COMMAND_MODE, then one SPI byte. -/
def write_command_8 (c : Nat) : List Ev := [Ev.cmd (c % 256)]

/-- Embeds `write_data_8`: DATA_MODE, then one SPI byte. -/
def write_data_8 (d : Nat) : List Ev := [Ev.data (d % 256)]

/-- Embeds `write_data_16`: DATA_MODE, then `data >> 8`, then the low byte. -/
def write_data_16 (d : Nat) : List Ev := [Ev.data (byteHi d), Ev.data (byteLo d)]

/-- Embeds `tft_set_window`: CASET, x0, x1, RASET, y0, y1, RAMWR. -/
def tft_set_window (x0 y0 x1 y1 : Nat) : List Ev :=
  write_command_8 ST7735_CASET ++ write_data_16 x0 ++ write_data_16 x1 ++
  write_command_8 ST7735_RASET ++ write_data_16 y0 ++ write_data_16 y1 ++
  write_command_8 ST7735_RAMWR

/-- The driver's mutable state: cursor position, foreground color and
background color (`_cursor_x`, `_cursor_y`, `_color`, `_bg_color`),
all `uint16_t`. -/
structure St where
  cursor_x : Nat
  cursor_y : Nat
  color : Nat
  bg_color : Nat
  deriving DecidableEq

/-- Embeds `tft_set_cursor`: stores the offset-corrected coordinates. -/
def tft_set_cursor (xOff yOff x y : Nat) (s : St) : St :=
  { s with cursor_x := u16 (x + xOff), cursor_y := u16 (y + yOff) }

/-- Embeds `tft_set_color`. -/
def tft_set_color (c : Nat) (s : St) : St := { s with color := u16 c }

/-- Embeds `tft_set_background_color`. -/
def tft_set_background_color (c : Nat) (s : St) : St := { s with bg_color := u16 c }

/-- Two scratch-buffer bytes for one glyph pixel: foreground color
big-endian if the font bit is set, else background color big-endian. -/
def pix (fg bg : Nat) (b : Bool) : List Nat :=
  if b then [byteHi fg, byteLo fg] else [byteHi bg, byteLo bg]

/-- The scratch-buffer contents produced by `tft_print_char`'s nested
loops: outer loop over the 7 bit rows `i`, inner loop over the 5 font
columns `j`, testing bit `i` of font byte `5*c + j` (the C computes the
glyph start as `font[c + (c << 2)]`). -/
def glyphBuffer (font : Nat → Nat) (c fg bg : Nat) : List Nat :=
  (List.range 7).flatMap fun i =>
    (List.range 5).flatMap fun j =>
      pix fg bg (Nat.testBit (font (5 * c + j)) i)

/-- Embeds `tft_print_char`: fills the scratch buffer from the font,
then emits `tft_set_window(_cursor_x, _cursor_y, _cursor_x + 4,
_cursor_x + 6)` (the y1 bound reuses `_cursor_x`, exactly as the C
source does) followed by one DMA block transfer of the buffered bytes
with repeat 1.  Returns the (unchanged) driver state, the scratch-buffer
bytes written, and the event trace. -/
def tft_print_char (font : Nat → Nat) (c : Nat) (s : St) : St × List Nat × List Ev :=
  let buf := glyphBuffer font c s.color s.bg_color
  (s, buf,
    tft_set_window s.cursor_x s.cursor_y (u16 (s.cursor_x + 4)) (u16 (s.cursor_x + 6)) ++
      [Ev.block (buf.take (u16 buf.length)) 1])

/-- Embeds `tft_print`: prints each character, advancing `_cursor_x`
by 6 after each one. -/
def tft_print (font : Nat → Nat) : St → List Nat → St × List Ev
  | s, [] => (s, [])
  | s, c :: cs =>
    let r := tft_print_char font c s
    let s1 := { r.1 with cursor_x := u16 (r.1.cursor_x + 6) }
    let rest := tft_print font s1 cs
    (rest.1, r.2.2 ++ rest.2)

/-- The digit-extraction loop of `tft_print_number`:
`while (num) { str[--digits] = num % 10 + '0'; num /= 10; }` with C
truncating division and remainder, building the digit characters from
least significant outward (so the accumulator ends most significant
first).  Fuel bounds the iteration count; 11 suffices for every
`int32_t` value. -/
def numDigits : Nat → Int → List Nat → List Nat
  | 0, _, acc => acc
  | fuel + 1, num, acc =>
    if num = 0 then acc
    else numDigits fuel (Int.tdiv num 10) ((Int.tmod num 10 + 48).toNat :: acc)

/-- Embeds `tft_print_number`: builds the fixed 11-character field
(space padding, optional minus sign, decimal digits) that the C code
assembles in `str[0..10]` and hands to `tft_print`.  Characters are
byte values (32 = space, 45 = minus, 48..57 = digits).  The argument is
wrapped to `int32_t`, and negation wraps as two's complement does. -/
def tft_print_number (n : Int) : List Nat :=
  let n := wrap32 n
  let num := if n < 0 then wrap32 (-n) else n
  let ds0 := numDigits 11 num []
  let ds1 := if ds0 = [] then [48] else ds0
  let ds2 := if n < 0 then 45 :: ds1 else ds1
  List.replicate (11 - ds2.length) 32 ++ ds2

/-- Embeds `tft_draw_pixel`: offset-corrects the coordinates, sets a
single-point window and writes the color as one 16-bit data value.  It
does not touch the scratch buffer (first component `[]`) and performs
no block transfer. -/
def tft_draw_pixel (xOff yOff x y color : Nat) : List Nat × List Ev :=
  let x := u16 (x + xOff)
  let y := u16 (y + yOff)
  ([], tft_set_window x y x y ++ write_data_16 color)

/-- Embeds `tft_fill_rect`: offset-corrects `x`, `y`, fills the scratch
buffer with `width` copies of the color's two bytes (high byte first),
sets the window to the `width × height` rectangle and issues one block
transfer of `sz = 2 * width` bytes with repeat count `height`. -/
def tft_fill_rect (xOff yOff x y width height color : Nat) : List Nat × List Ev :=
  let x := u16 (x + xOff)
  let y := u16 (y + yOff)
  let width := u16 width
  let height := u16 height
  let buf := List.flatten (List.replicate width [byteHi color, byteLo color])
  let sz := u16 (2 * width)
  (buf,
    tft_set_window x y (toU16 ((x : Int) + width - 1)) (toU16 ((y : Int) + height - 1)) ++
      [Ev.block (buf.take sz) height])

/-- Embeds `_tft_draw_fast_v_line`: `int16_t` arguments, offset
correction with `int16_t` wrap, a buffer fill of `h` pixels, a window
one column wide and `h` rows tall, and one block transfer with
repeat 1. -/
def _tft_draw_fast_v_line (xOff yOff : Nat) (x y h : Int) (color : Nat) : List Nat × List Ev :=
  let x := wrap16 (wrap16 x + xOff)
  let y := wrap16 (wrap16 y + yOff)
  let h := wrap16 h
  let buf := List.flatten (List.replicate h.toNat [byteHi color, byteLo color])
  let sz := u16 (2 * h.toNat)
  (buf,
    tft_set_window (toU16 x) (toU16 y) (toU16 x) (toU16 (y + h - 1)) ++
      [Ev.block (buf.take sz) 1])

/-- Embeds `_tft_draw_fast_h_line`: like the vertical case with the
roles of the axes exchanged (window `w` columns wide, one row tall). -/
def _tft_draw_fast_h_line (xOff yOff : Nat) (x y w : Int) (color : Nat) : List Nat × List Ev :=
  let x := wrap16 (wrap16 x + xOff)
  let y := wrap16 (wrap16 y + yOff)
  let w := wrap16 w
  let buf := List.flatten (List.replicate w.toNat [byteHi color, byteLo color])
  let sz := u16 (2 * w.toNat)
  (buf,
    tft_set_window (toU16 x) (toU16 y) (toU16 (x + w - 1)) (toU16 y) ++
      [Ev.block (buf.take sz) 1])

/-- Embeds the `_diff(a, b)` macro; the C comparison and subtraction
happen after integer promotion, so they are exact. -/
def _diff (a b : Int) : Int := if a > b then a - b else b - a

/-- The endpoint normalization at the top of `_tft_draw_line`: wrap the
`int16_t` parameters, compute `steep = _diff(y1, y0) > _diff(x1, x0)`,
swap the axis roles if steep, then swap the endpoints so the major
coordinate increases.  Returns `(steep, x0, y0, x1, y1)` in the
transformed frame. -/
def bresSetup (x0 y0 x1 y1 : Int) : Bool × Int × Int × Int × Int :=
  let x0 := wrap16 x0
  let y0 := wrap16 y0
  let x1 := wrap16 x1
  let y1 := wrap16 y1
  if _diff y1 y0 > _diff x1 x0 then
    if y0 > y1 then (true, y1, x1, y0, x0) else (true, y0, x0, y1, x1)
  else
    if x0 > x1 then (false, x1, y1, x0, y0) else (false, x0, y0, x1, y1)

/-- The plotting loop of `_tft_draw_line`: for `x0 ≤ x1`, plot
`(y0, x0)` if steep else `(x0, y0)`, update the error accumulator
(`err -= dy`, and on underflow `err += dx` and `y0 += step`), and
increment `x0`; all loop variables are `int16_t` and wrap.  Fuel bounds
the iteration count; `none` means the fuel ran out (the C loop would
still be running, or would never terminate). -/
def bresLoop (dx dy step : Int) (steep : Bool) :
    Nat → Int → Int → Int → Int → Option (List (Int × Int))
  | 0, _, _, _, _ => none
  | fuel + 1, x0, x1, y0, err =>
    if x0 ≤ x1 then
      let p := if steep then (y0, x0) else (x0, y0)
      let e1 := wrap16 (err - dy)
      let y2 := if e1 < 0 then wrap16 (y0 + step) else y0
      let e2 := if e1 < 0 then wrap16 (e1 + dx) else e1
      match bresLoop dx dy step steep fuel (wrap16 (x0 + 1)) x1 y2 e2 with
      | none => none
      | some l => some (p :: l)
    else
      some []

/-- Embeds `_tft_draw_line` (the Bresenham path), returning the list of
logical coordinates passed to `tft_draw_pixel`, in order.  `dx` and
`dy` are stored in `int16_t` and wrap; `err = dx >> 1` is an arithmetic
shift.  The fuel 70000 exceeds the largest possible terminating
iteration count (65536). -/
def _tft_draw_line (x0 y0 x1 y1 : Int) : Option (List (Int × Int)) :=
  match bresSetup x0 y0 x1 y1 with
  | (steep, a0, b0, a1, b1) =>
    let dx := wrap16 (a1 - a0)
    let dy := wrap16 (_diff b1 b0)
    let err := Int.fdiv dx 2
    let step : Int := if b0 < b1 then 1 else -1
    bresLoop dx dy step steep 70000 a0 a1 b0 err

/-- Which branch of `tft_draw_line`'s dispatch ran. -/
inductive LineBranch where
  | vert
  | horiz
  | bres
  deriving DecidableEq

/-- Embeds `tft_draw_line`: exactly vertical endpoints delegate to
`_tft_draw_fast_v_line` after ordering the y's, exactly horizontal ones
to `_tft_draw_fast_h_line` after ordering the x's, and everything else
to the Bresenham path (whose trace is the concatenation of its
`tft_draw_pixel` traces).  The height/width argument `y1 - y0 + 1` /
`x1 - x0 + 1` is computed in `int` and converted to the `int16_t`
parameter, hence the wrap. -/
def tft_draw_line (xOff yOff : Nat) (x0 y0 x1 y1 : Int) (color : Nat) :
    LineBranch × (List Nat × List Ev) :=
  let x0 := wrap16 x0
  let y0 := wrap16 y0
  let x1 := wrap16 x1
  let y1 := wrap16 y1
  if x0 = x1 then
    if y0 > y1 then
      (LineBranch.vert, _tft_draw_fast_v_line xOff yOff x0 y1 (wrap16 (y0 - y1 + 1)) color)
    else
      (LineBranch.vert, _tft_draw_fast_v_line xOff yOff x0 y0 (wrap16 (y1 - y0 + 1)) color)
  else if y0 = y1 then
    if x0 > x1 then
      (LineBranch.horiz, _tft_draw_fast_h_line xOff yOff x1 y0 (wrap16 (x0 - x1 + 1)) color)
    else
      (LineBranch.horiz, _tft_draw_fast_h_line xOff yOff x0 y0 (wrap16 (x1 - x0 + 1)) color)
  else
    (LineBranch.bres,
      ([],
        match _tft_draw_line x0 y0 x1 y1 with
        | none => []
        | some l => l.flatMap fun p => (tft_draw_pixel xOff yOff (toU16 p.1) (toU16 p.2) color).2))

/-- An all-zero font, used to evaluate the text primitives at concrete
inputs. -/
def font0 : Nat → Nat := fun _ => 0

end ST7735

namespace ST7735

theorem wrap16_eq_of_bounds (i : Int) (h1 : -32768 ≤ i) (h2 : i ≤ 32767) :
    wrap16 i = i := by
  unfold wrap16
  omega

theorem flatten_replicate_pair_length (n a b : Nat) :
    (List.flatten (List.replicate n [a, b])).length = 2 * n := by
  induction n with
  | zero => rfl
  | succ k ih =>
    simp only [List.replicate_succ, List.flatten_cons, List.length_append, ih,
      List.length_cons, List.length_nil]
    omega

theorem pix_length (fg bg : Nat) (b : Bool) : (pix fg bg b).length = 2 := by
  cases b <;> rfl

theorem glyphBuffer_length (font : Nat → Nat) (c fg bg : Nat) :
    (glyphBuffer font c fg bg).length = 70 := by
  simp [glyphBuffer, List.length_flatMap, Function.comp_def, pix_length]

theorem natAbs_tdiv_ten (a : Int) : (a.tdiv 10).natAbs = a.natAbs / 10 := by
  cases a with
  | ofNat m => rfl
  | negSucc m =>
    show ((-(Int.ofNat ((m + 1) / 10))).natAbs) = (m + 1) / 10
    rw [Int.natAbs_neg]
    rfl

theorem numDigits_length_le (g : Nat) :
    ∀ (f : Nat) (num : Int) (acc : List Nat), num.natAbs < 10 ^ g → g ≤ f →
      (numDigits f num acc).length ≤ g + acc.length := by
  induction g with
  | zero =>
    intro f num acc habs _
    have hz : num = 0 := by omega
    subst hz
    cases f with
    | zero => simp [numDigits]
    | succ f => simp [numDigits]
  | succ g ih =>
    intro f num acc habs hgf
    cases f with
    | zero => omega
    | succ f =>
      by_cases hz : num = 0
      · simp [numDigits, hz]
      · have hstep : (numDigits (f + 1) num acc).length =
            (numDigits f (Int.tdiv num 10) ((Int.tmod num 10 + 48).toNat :: acc)).length := by
          simp [numDigits, hz]
        rw [hstep]
        have habs2 : (Int.tdiv num 10).natAbs < 10 ^ g := by
          rw [natAbs_tdiv_ten]
          have : (10 : Nat) ^ (g + 1) = 10 ^ g * 10 := by ring
          omega
        have := ih f (Int.tdiv num 10) ((Int.tmod num 10 + 48).toNat :: acc) habs2 (by omega)
        simp at this
        omega

end ST7735

/-- C6: for all x0, y0, x1, y1, `tft_set_window` emits exactly the
column-address-set command, then x0 and x1 each as two data bytes high
byte first, then the row-address-set command, then y0 and y1 each as
two data bytes high byte first, then the RAM-write command. -/
theorem ST7735.set_window_byte_sequence (x0 y0 x1 y1 : Nat) :
    ST7735.tft_set_window x0 y0 x1 y1 =
      [ST7735.Ev.cmd ST7735.ST7735_CASET,
       ST7735.Ev.data (ST7735.byteHi x0), ST7735.Ev.data (ST7735.byteLo x0),
       ST7735.Ev.data (ST7735.byteHi x1), ST7735.Ev.data (ST7735.byteLo x1),
       ST7735.Ev.cmd ST7735.ST7735_RASET,
       ST7735.Ev.data (ST7735.byteHi y0), ST7735.Ev.data (ST7735.byteLo y0),
       ST7735.Ev.data (ST7735.byteHi y1), ST7735.Ev.data (ST7735.byteLo y1),
       ST7735.Ev.cmd ST7735.ST7735_RAMWR] := rfl

/-- C9: `tft_draw_pixel` sets the window to exactly the single
offset-corrected point, writes exactly one 16-bit data value (color,
high byte then low byte), performs no block transfer, and writes
nothing into the scratch buffer. -/
theorem ST7735.draw_pixel_single_point (xo yo x y c : Nat) :
    (ST7735.tft_draw_pixel xo yo x y c).2 =
      ST7735.tft_set_window (ST7735.u16 (x + xo)) (ST7735.u16 (y + yo))
          (ST7735.u16 (x + xo)) (ST7735.u16 (y + yo)) ++
        [ST7735.Ev.data (ST7735.byteHi c), ST7735.Ev.data (ST7735.byteLo c)] ∧
    (ST7735.tft_draw_pixel xo yo x y c).1 = [] ∧
    (ST7735.tft_draw_pixel xo yo x y c).2.filter ST7735.Ev.isBlock = [] :=
  ⟨rfl, rfl, rfl⟩

/-- C1 (failing-input evidence): with the cursor at (10, 20), the
window emitted by `tft_print_char` is (10, 20, 14, 16) — its last
bound is `cursor_x + 6`, not the `cursor_y + 6 = 26` the claim states —
while the scratch buffer does receive the expected 70 bytes streamed
as one block with repeat 1. -/
theorem ST7735.print_char_window_bug :
    (ST7735.tft_print_char ST7735.font0 65 ⟨10, 20, 0, 65535⟩).2.2 =
      ST7735.tft_set_window 10 20 14 16 ++
        [ST7735.Ev.block (ST7735.glyphBuffer ST7735.font0 65 0 65535) 1] ∧
    (ST7735.tft_print_char ST7735.font0 65 ⟨10, 20, 0, 65535⟩).2.2 ≠
      ST7735.tft_set_window 10 20 14 26 ++
        [ST7735.Ev.block (ST7735.glyphBuffer ST7735.font0 65 0 65535) 1] ∧
    (ST7735.glyphBuffer ST7735.font0 65 0 65535).length = 70 :=
  ⟨by decide, by decide, by decide⟩

/-- C7: the Bresenham path on endpoints (0,0) and (4,2) plots exactly
5 pixels, with strictly increasing x from 0 to 4 and consecutive y
coordinates differing by at most 1. -/
theorem ST7735.bresenham_small_line :
    ST7735._tft_draw_line 0 0 4 2 = some [(0, 0), (1, 0), (2, 1), (3, 1), (4, 2)] ∧
    ([(0, 0), (1, 0), (2, 1), (3, 1), (4, 2)] : List (Int × Int)).length = 5 ∧
    List.Chain' (fun p q => p.1 < q.1 ∧ (q.2 - p.2).natAbs ≤ 1)
      ([(0, 0), (1, 0), (2, 1), (3, 1), (4, 2)] : List (Int × Int)) :=
  ⟨by decide, by decide, by norm_num [List.chain'_cons]⟩

/-- C5: `tft_print_number (-7)` yields the 11-character field of 9
spaces, a minus sign and the digit 7; `tft_print_number 0` yields 10
spaces and the digit 0; and for every input the printed field is
exactly 11 characters wide (space-padded, right-justified). -/
theorem ST7735.print_number_fixed_width :
    ST7735.tft_print_number (-7) = List.replicate 9 32 ++ [45, 55] ∧
    ST7735.tft_print_number 0 = List.replicate 10 32 ++ [48] ∧
    ∀ n : Int, (ST7735.tft_print_number n).length = 11 := by
  refine ⟨by decide, by decide, ?_⟩
  intro n
  simp only [ST7735.tft_print_number]
  have hm : -2147483648 ≤ ST7735.wrap32 n ∧ ST7735.wrap32 n < 2147483648 := by
    unfold ST7735.wrap32
    omega
  set m := ST7735.wrap32 n with hmdef
  set num := if m < 0 then ST7735.wrap32 (-m) else m with hnumdef
  have hnum : num.natAbs < 10 ^ 10 := by
    have hpow : (10 : Nat) ^ 10 = 10000000000 := by norm_num
    rw [hpow, hnumdef]
    split_ifs with h
    · unfold ST7735.wrap32
      omega
    · omega
  set ds0 := ST7735.numDigits 11 num [] with hds0
  have h0 : ds0.length ≤ 10 := by
    have := ST7735.numDigits_length_le 10 11 num [] hnum (by norm_num)
    simpa using this
  set ds1 := if ds0 = [] then [48] else ds0 with hds1
  have h1a : 1 ≤ ds1.length := by
    rw [hds1]
    split_ifs with h
    · simp
    · exact List.length_pos.mpr h
  have h1b : ds1.length ≤ 10 := by
    rw [hds1]
    split_ifs with h
    · simp
    · exact h0
  set ds2 := if m < 0 then 45 :: ds1 else ds1 with hds2
  have h2 : 1 ≤ ds2.length ∧ ds2.length ≤ 11 := by
    rw [hds2]
    split_ifs with h
    · simp
      omega
    · exact ⟨h1a, by omega⟩
  rw [List.length_append, List.length_replicate]
  omega

/-- C8: `tft_print_char` leaves the cursor position and both colors
unchanged for every character, font and prior state, while `tft_print`
of an n-character string advances `cursor_x` by exactly 6 * n (in
`uint16_t` arithmetic) and leaves `cursor_y` and both colors
unchanged. -/
theorem ST7735.print_text_frame (font : Nat → Nat) :
    (∀ c s, (ST7735.tft_print_char font c s).1 = s) ∧
    (∀ s str, s.cursor_x < 65536 →
      (ST7735.tft_print font s str).1.cursor_x = ST7735.u16 (s.cursor_x + 6 * str.length) ∧
      (ST7735.tft_print font s str).1.cursor_y = s.cursor_y ∧
      (ST7735.tft_print font s str).1.color = s.color ∧
      (ST7735.tft_print font s str).1.bg_color = s.bg_color) := by
  refine ⟨fun c s => rfl, ?_⟩
  intro s str
  induction str generalizing s with
  | nil =>
    intro hx
    exact ⟨by simp [ST7735.tft_print, ST7735.u16, Nat.mod_eq_of_lt hx], rfl, rfl, rfl⟩
  | cons c cs ih =>
    intro hx
    have hx1 : (ST7735.u16 (s.cursor_x + 6)) < 65536 := Nat.mod_lt _ (by norm_num)
    obtain ⟨i1, i2, i3, i4⟩ := ih { s with cursor_x := ST7735.u16 (s.cursor_x + 6) } hx1
    have e1 : (ST7735.tft_print font s (c :: cs)).1 =
        (ST7735.tft_print font { s with cursor_x := ST7735.u16 (s.cursor_x + 6) } cs).1 := rfl
    rw [e1]
    refine ⟨?_, i2, i3, i4⟩
    rw [i1]
    simp only [ST7735.u16, List.length_cons]
    omega

/-- Witness for C8: printing the two-character string [65, 66] from
cursor position 0 advances the cursor to exactly 12. -/
theorem ST7735.print_text_frame_witness :
    (⟨0, 3, 1, 2⟩ : ST7735.St).cursor_x < 65536 ∧
    (ST7735.tft_print ST7735.font0 ⟨0, 3, 1, 2⟩ [65, 66]).1.cursor_x =
      ST7735.u16 ((⟨0, 3, 1, 2⟩ : ST7735.St).cursor_x + 6 * ([65, 66] : List Nat).length) :=
  ⟨by decide,
    ((ST7735.print_text_frame ST7735.font0).2 ⟨0, 3, 1, 2⟩ [65, 66] (by decide)).1⟩

/-- C3: `tft_fill_rect x y w h color` performs exactly one scratch
buffer fill of 2*w bytes (w copies of the color pair, high byte first),
sets the window to the offset-corrected rectangle spanning w columns
and h rows, and issues exactly one block transfer of those 2*w bytes
with repeat count h, so the bytes conceptually streamed total
2*w*h. -/
theorem ST7735.fill_rect_one_fill_one_block (xo yo x y w h c : Nat) (hw : w < 32768) :
    (ST7735.tft_fill_rect xo yo x y w h c).1 =
      List.flatten (List.replicate w [ST7735.byteHi c, ST7735.byteLo c]) ∧
    (ST7735.tft_fill_rect xo yo x y w h c).1.length = 2 * w ∧
    (ST7735.tft_fill_rect xo yo x y w h c).2 =
      ST7735.tft_set_window (ST7735.u16 (x + xo)) (ST7735.u16 (y + yo))
          (ST7735.toU16 ((ST7735.u16 (x + xo) : Int) + w - 1))
          (ST7735.toU16 ((ST7735.u16 (y + yo) : Int) + ST7735.u16 h - 1)) ++
        [ST7735.Ev.block (ST7735.tft_fill_rect xo yo x y w h c).1 (ST7735.u16 h)] ∧
    (ST7735.tft_fill_rect xo yo x y w h c).1.length * ST7735.u16 h = 2 * w * ST7735.u16 h := by
  have hw16 : ST7735.u16 w = w := Nat.mod_eq_of_lt (by omega)
  have hsz : ST7735.u16 (2 * w) = 2 * w := Nat.mod_eq_of_lt (by omega)
  have hlen : (List.flatten (List.replicate w [ST7735.byteHi c, ST7735.byteLo c])).length = 2 * w :=
    ST7735.flatten_replicate_pair_length w _ _
  have htake :
      (List.flatten (List.replicate w [ST7735.byteHi c, ST7735.byteLo c])).take (2 * w) =
        List.flatten (List.replicate w [ST7735.byteHi c, ST7735.byteLo c]) :=
    List.take_of_length_le (by omega)
  refine ⟨?_, ?_, ?_, ?_⟩
  · simp only [ST7735.tft_fill_rect, hw16]
  · simp only [ST7735.tft_fill_rect, hw16, hlen]
  · simp only [ST7735.tft_fill_rect, hw16, hsz, htake]
  · simp only [ST7735.tft_fill_rect, hw16, hlen]

/-- Witness for C3: filling a 3-column, 2-row rectangle at (5, 6) with
offsets (1, 26). -/
theorem ST7735.fill_rect_one_fill_one_block_witness :
    (3 : Nat) < 32768 ∧
    (ST7735.tft_fill_rect 1 26 5 6 3 2 7).1.length = 2 * 3 :=
  ⟨by decide, (ST7735.fill_rect_one_fill_one_block 1 26 5 6 3 2 7 (by decide)).2.1⟩

/-- C2: under the documented caller contract, each buffered primitive
writes at most `capacity = 2 * W` bytes into the scratch buffer, where
`W` is the display width (the buffer holds one full 16-bit row).
Width-driven fills (`tft_fill_rect`, `_tft_draw_fast_h_line`) write
exactly 2*w bytes, bounded by the buffer by construction; the vertical
fast line writes 2*h bytes, bounded through the panel height; and
`tft_fill_rect`'s height-driven repetition reuses the same buffered
bytes through the block transfer's repeat count (its buffer contents
do not depend on the height, and its trace holds exactly one block
event with repeat `h`).  The numeric panel dimensions live in the
header `st7735.h`, which is not among the sources, so they enter as
parameters `W`, `H`; modelled from the spec, the scratch buffer spans
one full display row and the driver initializes the panel in the
horizontal (landscape) rotation, so the panel height does not exceed
the display width (`H ≤ W`). -/
theorem ST7735.scratch_buffer_capacity
    (W H : Nat) (xo yo x y w h c : Nat) (xi yi wv hv : Int)
    (hHW : H ≤ W) (hWcap : W ≤ 32767)
    (hw : w ≤ W) (hwv0 : 0 ≤ wv) (hwvW : wv ≤ (W : Int))
    (hhv0 : 0 ≤ hv) (hhvH : hv ≤ (H : Int)) :
    ((ST7735.tft_fill_rect xo yo x y w h c).1.length = 2 * w ∧ 2 * w ≤ 2 * W) ∧
    ((ST7735._tft_draw_fast_h_line xo yo xi yi wv c).1.length = 2 * wv.toNat ∧
      2 * wv.toNat ≤ 2 * W) ∧
    ((ST7735._tft_draw_fast_v_line xo yo xi yi hv c).1.length = 2 * hv.toNat ∧
      2 * hv.toNat ≤ 2 * W) ∧
    (∀ h2 : Nat, (ST7735.tft_fill_rect xo yo x y w h c).1 =
      (ST7735.tft_fill_rect xo yo x y w h2 c).1) ∧
    (ST7735.tft_fill_rect xo yo x y w h c).2.filter ST7735.Ev.isBlock =
      [ST7735.Ev.block
        ((ST7735.tft_fill_rect xo yo x y w h c).1.take (ST7735.u16 (2 * ST7735.u16 w)))
        (ST7735.u16 h)] := by
  have hw16 : ST7735.u16 w = w := Nat.mod_eq_of_lt (by omega)
  have hwv : ST7735.wrap16 wv = wv := ST7735.wrap16_eq_of_bounds wv (by omega) (by omega)
  have hhv : ST7735.wrap16 hv = hv := ST7735.wrap16_eq_of_bounds hv (by omega) (by omega)
  refine ⟨⟨?_, by omega⟩, ⟨?_, by omega⟩, ⟨?_, by omega⟩, ?_, ?_⟩
  · simp only [ST7735.tft_fill_rect, hw16, ST7735.flatten_replicate_pair_length]
  · simp only [ST7735._tft_draw_fast_h_line, hwv, ST7735.flatten_replicate_pair_length]
  · simp only [ST7735._tft_draw_fast_v_line, hhv, ST7735.flatten_replicate_pair_length]
  · intro h2
    rfl
  · rfl

/-- Witness for C2: a 160x80 landscape panel, a 100-column fill over
50 rows, a 120-pixel horizontal line and a 60-pixel vertical line. -/
theorem ST7735.scratch_buffer_capacity_witness :
    ((80 : Nat) ≤ 160 ∧ (160 : Nat) ≤ 32767 ∧ (100 : Nat) ≤ 160 ∧
      (0 : Int) ≤ 120 ∧ (120 : Int) ≤ 160 ∧ (0 : Int) ≤ 60 ∧ (60 : Int) ≤ 80) ∧
    (ST7735.tft_fill_rect 1 26 5 6 100 50 7).1.length = 2 * 100 ∧ 2 * 100 ≤ 2 * 160 :=
  ⟨⟨by decide, by decide, by decide, by decide, by decide, by decide, by decide⟩,
    (ST7735.scratch_buffer_capacity 160 80 1 26 5 6 100 50 7 3 4 120 60
      (by decide) (by decide) (by decide) (by decide) (by decide)
      (by decide) (by decide)).1.1,
    (ST7735.scratch_buffer_capacity 160 80 1 26 5 6 100 50 7 3 4 120 60
      (by decide) (by decide) (by decide) (by decide) (by decide)
      (by decide) (by decide)).1.2⟩

/-- C4: for `int16_t` endpoints, `tft_draw_line` with x0 = x1 produces
exactly the protocol behavior of the fast vertical line primitive over
the corrected range [min(y0,y1), max(y0,y1)] (its branch marker is
`vert`, never the Bresenham branch), and with y0 = y1 (and x0 distinct
from x1) exactly that of the fast horizontal line primitive over the
corrected x-range. -/
theorem ST7735.draw_line_axis_dispatch (xo yo : Nat) (x0 y0 x1 y1 : Int) (c : Nat)
    (h1 : -32768 ≤ x0) (h2 : x0 ≤ 32767) (h3 : -32768 ≤ y0) (h4 : y0 ≤ 32767)
    (h5 : -32768 ≤ x1) (h6 : x1 ≤ 32767) (h7 : -32768 ≤ y1) (h8 : y1 ≤ 32767) :
    (x0 = x1 →
      ST7735.tft_draw_line xo yo x0 y0 x1 y1 c =
        (ST7735.LineBranch.vert,
          ST7735._tft_draw_fast_v_line xo yo x0 (min y0 y1)
            (ST7735.wrap16 (max y0 y1 - min y0 y1 + 1)) c)) ∧
    (x0 ≠ x1 → y0 = y1 →
      ST7735.tft_draw_line xo yo x0 y0 x1 y1 c =
        (ST7735.LineBranch.horiz,
          ST7735._tft_draw_fast_h_line xo yo (min x0 x1) y0
            (ST7735.wrap16 (max x0 x1 - min x0 x1 + 1)) c)) := by
  have w0 : ST7735.wrap16 x0 = x0 := ST7735.wrap16_eq_of_bounds _ h1 h2
  have w1 : ST7735.wrap16 y0 = y0 := ST7735.wrap16_eq_of_bounds _ h3 h4
  have w2 : ST7735.wrap16 x1 = x1 := ST7735.wrap16_eq_of_bounds _ h5 h6
  have w3 : ST7735.wrap16 y1 = y1 := ST7735.wrap16_eq_of_bounds _ h7 h8
  constructor
  · intro he
    simp only [ST7735.tft_draw_line, w0, w1, w2, w3]
    split_ifs with hgt
    · rw [min_eq_right (by omega), max_eq_left (by omega)]
    · rw [min_eq_left (by omega), max_eq_right (by omega)]
  · intro hne he
    simp only [ST7735.tft_draw_line, w0, w1, w2, w3]
    split_ifs with hxx hd1 hswap
    · exact absurd hxx hne
    · exact absurd hxx hne
    · rw [min_eq_right (by omega), max_eq_left (by omega)]
    · rw [min_eq_left (by omega), max_eq_right (by omega)]

/-- Witness for C4: a vertical call with y0 > y1 dispatches to the fast
vertical line over the corrected range. -/
theorem ST7735.draw_line_axis_dispatch_witness :
    ST7735.tft_draw_line 1 26 3 9 3 2 5 =
      (ST7735.LineBranch.vert,
        ST7735._tft_draw_fast_v_line 1 26 3 (min (9 : Int) 2)
          (ST7735.wrap16 (max (9 : Int) 2 - min (9 : Int) 2 + 1)) 5) :=
  (ST7735.draw_line_axis_dispatch 1 26 3 9 3 2 5 (by decide) (by decide) (by decide)
    (by decide) (by decide) (by decide) (by decide) (by decide)).1 rfl

theorem ST7735._diff_eq_natAbs (a b : Int) :
    ST7735._diff a b = ((a - b).natAbs : Int) := by
  unfold ST7735._diff
  split_ifs <;> omega

theorem ST7735.bresLoop_some_length (dx dy step : Int) (steep : Bool) :
    ∀ (fuel : Nat) (x0 x1 y0 err : Int), -32768 ≤ x0 → x1 ≤ 32766 →
      (x1 + 1 - x0).toNat < fuel →
      ∃ l, ST7735.bresLoop dx dy step steep fuel x0 x1 y0 err = some l ∧
        l.length = (x1 + 1 - x0).toNat := by
  intro fuel
  induction fuel with
  | zero =>
    intro x0 x1 y0 err _ _ hf
    omega
  | succ fuel ih =>
    intro x0 x1 y0 err h0 h1 hf
    by_cases hle : x0 ≤ x1
    · have hwrap : ST7735.wrap16 (x0 + 1) = x0 + 1 :=
        ST7735.wrap16_eq_of_bounds _ (by omega) (by omega)
      obtain ⟨l, hl, hlen⟩ := ih (x0 + 1) x1
        (if ST7735.wrap16 (err - dy) < 0 then ST7735.wrap16 (y0 + step) else y0)
        (if ST7735.wrap16 (err - dy) < 0 then
          ST7735.wrap16 (ST7735.wrap16 (err - dy) + dx) else ST7735.wrap16 (err - dy))
        (by omega) h1 (by omega)
      refine ⟨(if steep then (y0, x0) else (x0, y0)) :: l, ?_, ?_⟩
      · simp only [ST7735.bresLoop]
        rw [if_pos hle, hwrap, hl]
      · simp only [List.length_cons, hlen]
        omega
    · refine ⟨[], ?_, ?_⟩
      · simp only [ST7735.bresLoop]
        rw [if_neg hle]
      · simp only [List.length_nil]
        omega

/-- C10: for `int16_t` endpoints whose loop counter does not overflow
(major-axis upper bound below 32767 after the internal swaps), the
Bresenham path terminates and plots exactly
max(abs(x1 - x0), abs(y1 - y0)) + 1 pixels. -/
theorem ST7735.bresenham_pixel_count (x0 y0 x1 y1 : Int)
    (h1 : -32768 ≤ x0) (h2 : x0 ≤ 32767) (h3 : -32768 ≤ y0) (h4 : y0 ≤ 32767)
    (h5 : -32768 ≤ x1) (h6 : x1 ≤ 32767) (h7 : -32768 ≤ y1) (h8 : y1 ≤ 32767)
    (hmaj : (ST7735.bresSetup x0 y0 x1 y1).2.2.2.1 ≤ 32766) :
    ∃ l, ST7735._tft_draw_line x0 y0 x1 y1 = some l ∧
      l.length = max (x1 - x0).natAbs (y1 - y0).natAbs + 1 := by
  have w0 : ST7735.wrap16 x0 = x0 := ST7735.wrap16_eq_of_bounds _ h1 h2
  have w1 : ST7735.wrap16 y0 = y0 := ST7735.wrap16_eq_of_bounds _ h3 h4
  have w2 : ST7735.wrap16 x1 = x1 := ST7735.wrap16_eq_of_bounds _ h5 h6
  have w3 : ST7735.wrap16 y1 = y1 := ST7735.wrap16_eq_of_bounds _ h7 h8
  rcases hset : ST7735.bresSetup x0 y0 x1 y1 with ⟨steep, a0, b0, a1, b1⟩
  rw [hset] at hmaj
  dsimp only at hmaj
  have key : -32768 ≤ a0 ∧ a0 ≤ a1 ∧
      (a1 + 1 - a0).toNat = max (x1 - x0).natAbs (y1 - y0).natAbs + 1 := by
    simp only [ST7735.bresSetup, w0, w1, w2, w3, ST7735._diff_eq_natAbs] at hset
    split_ifs at hset with hsteep hsw1 hsw2
    · obtain ⟨e1, e2, e3, e4, e5⟩ := Prod.mk.injEq .. ▸ hset
      omega
    · obtain ⟨e1, e2, e3, e4, e5⟩ := Prod.mk.injEq .. ▸ hset
      omega
    · obtain ⟨e1, e2, e3, e4, e5⟩ := Prod.mk.injEq .. ▸ hset
      omega
    · obtain ⟨e1, e2, e3, e4, e5⟩ := Prod.mk.injEq .. ▸ hset
      omega
  obtain ⟨ha0, hle, hspan⟩ := key
  unfold ST7735._tft_draw_line
  rw [hset]
  dsimp only
  obtain ⟨l, hl, hlen⟩ := ST7735.bresLoop_some_length (ST7735.wrap16 (a1 - a0))
    (ST7735.wrap16 (ST7735._diff b1 b0)) (if b0 < b1 then (1 : Int) else -1) steep
    70000 a0 a1 b0 (Int.fdiv (ST7735.wrap16 (a1 - a0)) 2) ha0 hmaj (by omega)
  exact ⟨l, hl, by omega⟩

/-- Witness for C10: the line from (0, 0) to (20, 7) plots exactly 21
pixels. -/
theorem ST7735.bresenham_pixel_count_witness :
    ∃ l, ST7735._tft_draw_line 0 0 20 7 = some l ∧
      l.length = max ((20 : Int) - 0).natAbs ((7 : Int) - 0).natAbs + 1 :=
  ST7735.bresenham_pixel_count 0 0 20 7 (by decide) (by decide) (by decide) (by decide)
    (by decide) (by decide) (by decide) (by decide) (by decide)
